import Mathlib

/-!
Shallow embedding of the py-evm execution core (eth/vm), covering the London
fee rules, gas refunds, message application with snapshot discipline, Berlin
access-set warming, contract-creation code deposit, the JUMP and JUMPI
handlers, receipt-bloom validation, the costless-state context manager, and
the MSTORE and MSTORE8 handlers.  Machine integers are modelled as Nat or Int;
byte strings as lists of Nat; fallible code returns Except.
-/

namespace PyEvm

/-- Addresses are 20-byte strings; we model byte strings as lists of Nat. -/
abbrev Address := List Nat

/-- VM error kinds raised by the modelled code paths. -/
inductive VMErr where
  | stackDepthLimit
  | insufficientFunds
  | outOfGas
  | invalidJumpDestination
  | invalidInstruction
  | insufficientStack
  | validationError
  deriving DecidableEq, Repr

/-! ## Byte-string utilities (eth_utils int_to_big_endian and friends) -/

/-- Little-endian base-256 digits, structurally recursive on a fuel bound
so that concrete inputs evaluate inside the kernel. -/
def natToLEBytesAux (fuel n : Nat) : List Nat :=
  match fuel with
  | 0 => []
  | fuel + 1 => if n = 0 then [] else (n % 256) :: natToLEBytesAux fuel (n / 256)

/-- Little-endian base-256 digits of a natural number (empty for zero); the
number itself bounds the recursion depth. -/
def natToLEBytes (n : Nat) : List Nat := natToLEBytesAux n n

/-- Minimal big-endian byte encoding of a natural number; eth_utils
int_to_big_endian encodes zero as a single zero byte. -/
def intToBigEndian (n : Nat) : List Nat :=
  if n = 0 then [0] else (natToLEBytes n).reverse

/-- Big-endian byte decoding, eth_utils big_endian_to_int. -/
def bigEndianToInt (bs : List Nat) : Nat :=
  bs.foldl (fun acc b => acc * 256 + b) 0

/-- Fixed-width 32-byte big-endian serialization, the rlp sedes uint32
(BigEndianInt of 32 bytes) used for bloom-filter topic lookups. -/
def serializeUint32 (n : Nat) : List Nat :=
  let bs := (natToLEBytes n).reverse
  List.replicate (32 - bs.length) 0 ++ bs

/-! ## Accounts and world state (state facade data relevant to the claims) -/

/-- Account data: nonce, balance and code.  A missing account reads as the
default (nonce 0, balance 0, empty code). -/
structure Account where
  nonce : Nat
  balance : Int
  code : List Nat
  deriving DecidableEq, Repr

/-- Default value of an account that has never been written. -/
def Account.default : Account := { nonce := 0, balance := 0, code := [] }

/-- Look up a key in an association list (first match wins). -/
def lookupAssoc {α β : Type} [DecidableEq α] : List (α × β) → α → Option β
  | [], _ => none
  | (k, v) :: rest, a => if k = a then some v else lookupAssoc rest a

/-- Insert or replace a binding in an association list (first match wins). -/
def setAssoc {α β : Type} [DecidableEq α] : List (α × β) → α → β → List (α × β)
  | [], a, b => [(a, b)]
  | (k, v) :: rest, a, b =>
    if k = a then (a, b) :: rest else (k, v) :: setAssoc rest a b

/-- Remove every binding of a key from an association list. -/
def removeAssoc {α β : Type} [DecidableEq α] : List (α × β) → α → List (α × β)
  | [], _ => []
  | (k, v) :: rest, a =>
    if k = a then removeAssoc rest a else (k, v) :: removeAssoc rest a

/-- World state as seen by the claims: accounts plus the touched set and the
Berlin warm access sets. -/
structure EvmState where
  accounts : List (Address × Account)
  touched : List Address
  warmAddresses : List Address
  warmSlots : List (Address × Nat)
  deriving DecidableEq, Repr

/-- Read an account, defaulting to the empty account. -/
def getAccount (st : EvmState) (a : Address) : Account :=
  match lookupAssoc st.accounts a with
  | some acct => acct
  | none => Account.default

/-- Write an account record. -/
def setAccount (st : EvmState) (a : Address) (acct : Account) : EvmState :=
  { st with accounts := setAssoc st.accounts a acct }

/-- State facade get_balance. -/
def getBalance (st : EvmState) (a : Address) : Int :=
  (getAccount st a).balance

/-- State facade delta_balance. -/
def deltaBalance (st : EvmState) (a : Address) (d : Int) : EvmState :=
  setAccount st a { getAccount st a with balance := (getAccount st a).balance + d }

/-- State facade touch_account. -/
def touchAccount (st : EvmState) (a : Address) : EvmState :=
  { st with touched := a :: st.touched }

/-- State facade set_code. -/
def setCode (st : EvmState) (a : Address) (code : List Nat) : EvmState :=
  setAccount st a { getAccount st a with code := code }

/-- State facade increment_nonce. -/
def incrementNonce (st : EvmState) (a : Address) : EvmState :=
  setAccount st a { getAccount st a with nonce := (getAccount st a).nonce + 1 }

/-- State facade delete_account. -/
def deleteAccount (st : EvmState) (a : Address) : EvmState :=
  { st with accounts := removeAssoc st.accounts a }

/-- State facade mark_address_warm (EIP-2929 accessed addresses). -/
def markAddressWarm (st : EvmState) (a : Address) : EvmState :=
  { st with warmAddresses := a :: st.warmAddresses }

/-- State facade mark_storage_warm (EIP-2929 accessed storage keys). -/
def markStorageWarm (st : EvmState) (a : Address) (slot : Nat) : EvmState :=
  { st with warmSlots := (a, slot) :: st.warmSlots }

/-! ## London fee rules (eth/vm/forks/london/state.py) -/

/-- Fields of an EIP-1559 dynamic-fee transaction used by the London fee
rules. -/
structure LondonTransaction where
  maxFeePerGas : Int
  maxPriorityFeePerGas : Int
  deriving DecidableEq, Repr

/-- LondonState.get_tip. -/
def londonGetTip (baseFeePerGas : Int) (tx : LondonTransaction) : Int :=
  min (tx.maxFeePerGas - baseFeePerGas) tx.maxPriorityFeePerGas

/-- LondonState.get_gas_price. -/
def londonGetGasPrice (baseFeePerGas : Int) (tx : LondonTransaction) : Int :=
  min tx.maxFeePerGas (tx.maxPriorityFeePerGas + baseFeePerGas)

/-- The gas_price field computed by LondonState.get_transaction_context and
stored in the transaction context. -/
def londonTransactionContextGasPrice (baseFeePerGas : Int)
    (tx : LondonTransaction) : Int :=
  min (tx.maxPriorityFeePerGas + baseFeePerGas) tx.maxFeePerGas

/-! ## Gas refunds and transaction finalization
(eth/vm/forks/frontier/state.py, eth/vm/forks/london/state.py) -/

/-- Pre-London refund quotient.  Modelled from the spec: the frontier
constants module is absent from src; the spec gives quotient 2. -/
def MAX_REFUND_QUOTIENT : Nat := 2

/-- London refund quotient (EIP-3529).  Modelled from the spec: the london
constants module is absent from src; the spec gives quotient 5. -/
def EIP3529_MAX_REFUND_QUOTIENT : Nat := 5

/-! ## Messages and computations (eth/vm/message.py, eth/vm/computation.py) -/

/-- Call depth limit.  Modelled from the spec: eth/constants.py is absent
from src; the spec fixes the call depth bound at 1024. -/
def STACK_DEPTH_LIMIT : Nat := 1024

/-- Stack items are ints or byte strings, as in the py-evm stack. -/
abbrev StackItem := Nat ⊕ List Nat

/-- Code stream: raw code bytes plus the program counter.  Modelled from the
spec: eth/vm/code_stream.py is absent from src; a JUMP destination must hold
the JUMPDEST byte and lie on a valid opcode boundary, that is, not inside
PUSH immediate data. -/
structure CodeStream where
  code : List Nat
  programCounter : Nat
  deriving DecidableEq, Repr

/-- Message fields used by apply_message and apply_create_message. -/
structure Message where
  sender : Address
  storageAddress : Address
  value : Nat
  depth : Nat
  shouldTransferValue : Bool
  deriving DecidableEq, Repr

/-- Per-call computation frame fields used by the modelled handlers. -/
structure Computation where
  stack : List StackItem
  memory : List Nat
  code : CodeStream
  gasRemaining : Nat
  gasRefund : Nat
  output : List Nat
  error : Option VMErr
  accountsToDelete : List Address
  deriving DecidableEq, Repr

/-- BaseComputation.is_error. -/
def Computation.isError (c : Computation) : Bool := c.error.isSome

/-- GasMeter.consume_gas: raises OutOfGas when the charge exceeds the gas
remaining, otherwise deducts it. -/
def consumeGas (c : Computation) (amount : Nat) : Except VMErr Computation :=
  if c.gasRemaining < amount then .error .outOfGas
  else .ok { c with gasRemaining := c.gasRemaining - amount }

/-- GasMeter.refund_gas, reached through Computation.refund_gas. -/
def refundGas (c : Computation) (amount : Nat) : Computation :=
  { c with gasRefund := c.gasRefund + amount }

/-- State snapshot capture.  Modelled from the spec: snapshot, commit and
revert (the journal under eth/db) are absent from src; per the spec a
snapshot captures the state, revert restores exactly that state, and commit
keeps the changes made since the snapshot. -/
def snapshotOf (st : EvmState) : EvmState := st

/-- FrontierComputation.apply_message.  The argument run stands for
apply_computation (the opcode interpreter loop, absent from src); it returns
the finished child computation together with the mutated state. -/
def applyMessage (run : EvmState → Message → Computation × EvmState)
    (st : EvmState) (msg : Message) : Except VMErr (Computation × EvmState) :=
  let snapshot := snapshotOf st
  if msg.depth > STACK_DEPTH_LIMIT then
    .error .stackDepthLimit
  else
    let transfer : Except VMErr EvmState :=
      if msg.shouldTransferValue = true ∧ msg.value ≠ 0 then
        let senderBalance := getBalance st msg.sender
        if senderBalance < (msg.value : Int) then .error .insufficientFunds
        else
          .ok (deltaBalance (deltaBalance st msg.sender (-(msg.value : Int)))
                msg.storageAddress (msg.value : Int))
      else .ok st
    match transfer with
    | .error e => .error e
    | .ok st1 =>
      let st2 := touchAccount st1 msg.storageAddress
      let res := run st2 msg
      if res.1.isError then .ok (res.1, snapshot) else .ok (res.1, res.2)

/-- EIP-170 contract code size limit.  Modelled from the spec: the
spurious_dragon constants module is absent from src; the spec gives 24,576
bytes. -/
def EIP170_CODE_SIZE_LIMIT : Nat := 24576

/-- SpuriousDragonComputation.validate_contract_code: raises OutOfGas when
the code to deposit exceeds the EIP-170 size limit. -/
def validateContractCode (contractCode : List Nat) : Except VMErr Unit :=
  if contractCode.length > EIP170_CODE_SIZE_LIMIT then .error .outOfGas
  else .ok ()

/-- FrontierComputation.apply_create_message.  The argument gasCodedeposit
stands for the GAS_CODEDEPOSIT constant, whose module is absent from src;
the modelled behaviour does not depend on its value. -/
def frontierApplyCreateMessage (gasCodedeposit : Nat)
    (run : EvmState → Message → Computation × EvmState)
    (st : EvmState) (msg : Message) : Except VMErr (Computation × EvmState) :=
  match applyMessage run st msg with
  | .error e => .error e
  | .ok (computation, st1) =>
    if computation.isError then .ok (computation, st1)
    else
      let contractCode := computation.output
      if contractCode ≠ [] then
        let contractCodeGasFee := contractCode.length * gasCodedeposit
        match consumeGas computation contractCodeGasFee with
        | .error _ => .ok ({ computation with output := [] }, st1)
        | .ok comp2 => .ok (comp2, setCode st1 msg.storageAddress contractCode)
      else .ok (computation, st1)

/-- SpuriousDragonComputation.apply_create_message: snapshots before the
nonce increment, reverts to that snapshot when the computation errors or
when depositing the code raises a VMError, and otherwise stores the code and
commits. -/
def spuriousDragonApplyCreateMessage (gasCodedeposit : Nat)
    (run : EvmState → Message → Computation × EvmState)
    (st : EvmState) (msg : Message) : Except VMErr (Computation × EvmState) :=
  let snapshot := snapshotOf st
  let stN := incrementNonce st msg.storageAddress
  match applyMessage run stN msg with
  | .error e => .error e
  | .ok (computation, st1) =>
    if computation.isError then .ok (computation, snapshot)
    else
      let contractCode := computation.output
      if contractCode ≠ [] then
        let deposit : Except VMErr Computation :=
          match validateContractCode contractCode with
          | .error e => .error e
          | .ok _ => consumeGas computation (contractCode.length * gasCodedeposit)
        match deposit with
        | .error err => .ok ({ computation with error := some err }, snapshot)
        | .ok comp2 => .ok (comp2, setCode st1 msg.storageAddress contractCode)
      else .ok (computation, st1)

/-- FrontierTransactionExecutor.calculate_gas_refund: a selfdestruct refund
is added once per account queued for deletion, then the accumulated refund
is capped at gas_used divided by the quotient 2.  refundSelfdestruct stands
for the REFUND_SELFDESTRUCT constant, whose module is absent from src; the
claim does not depend on its value. -/
def frontierCalculateGasRefund (refundSelfdestruct : Nat)
    (computation : Computation) (gasUsed : Nat) : Nat :=
  let numDeletions := computation.accountsToDelete.length
  let computation1 :=
    if numDeletions ≠ 0 then refundGas computation (refundSelfdestruct * numDeletions)
    else computation
  min computation1.gasRefund (gasUsed / MAX_REFUND_QUOTIENT)

/-- LondonTransactionExecutor.calculate_gas_refund: no selfdestruct refund,
cap at gas_used divided by the quotient 5. -/
def londonCalculateGasRefund (computation : Computation) (gasUsed : Nat) : Nat :=
  min computation.gasRefund (gasUsed / EIP3529_MAX_REFUND_QUOTIENT)

/-- FrontierTransactionExecutor.finalize_computation: credit the refund to
the sender, pay the tip to the coinbase and delete the accounts queued for
deletion.  calcRefund stands for the fork-specific calculate_gas_refund,
gasPrice for transaction_context.gas_price and tip for get_tip. -/
def finalizeComputation (calcRefund : Computation → Nat → Nat)
    (gasPrice tip : Nat) (txGas : Nat) (sender coinbase : Address)
    (computation : Computation) (st : EvmState) : EvmState :=
  let gasRemaining := computation.gasRemaining
  let gasUsed := txGas - gasRemaining
  let gasRefund := calcRefund computation gasUsed
  let gasRefundAmount := (gasRefund + gasRemaining) * gasPrice
  let st1 :=
    if gasRefundAmount ≠ 0 then deltaBalance st sender (gasRefundAmount : Int)
    else st
  let gasUsedFinal := txGas - gasRemaining - gasRefund
  let transactionFee := gasUsedFinal * tip
  let st2 := deltaBalance st1 coinbase (transactionFee : Int)
  computation.accountsToDelete.foldl (fun s a => deleteAccount s a) st2

/-! ## Berlin access-set warming (eth/vm/forks/berlin/state.py) -/

/-- Fields of an EIP-2930 access-list transaction used by the Berlin
executor. -/
structure AccessListTransaction where
  sender : Address
  accessList : List (Address × List Nat)
  deriving DecidableEq, Repr

/-- State facade is_address_warm.  Modelled from the spec: eth/vm/state.py
is absent from src; per the spec the access set is pre-warmed with the
precompile addresses, so an address is warm when it was marked warm or is a
precompile. -/
def isAddressWarm (precompiles : List Address) (st : EvmState) (a : Address) :
    Bool :=
  decide (a ∈ st.warmAddresses) || decide (a ∈ precompiles)

/-- State facade is_storage_warm. -/
def isStorageWarm (st : EvmState) (a : Address) (slot : Nat) : Bool :=
  decide ((a, slot) ∈ st.warmSlots)

/-- Body of the access-list loop in
BerlinTransactionExecutor.build_computation: warm the address of one entry
and then each of its storage slots. -/
def warmAccessListEntry (s : EvmState) (entry : Address × List Nat) : EvmState :=
  entry.2.foldl (fun s2 slot => markStorageWarm s2 entry.1 slot)
    (markAddressWarm s entry.1)

/-- The warming phase of BerlinTransactionExecutor.build_computation: warm
the transaction sender, the message storage address and every access-list
entry. -/
def berlinWarmAccessSet (st : EvmState) (tx : AccessListTransaction)
    (msg : Message) : EvmState :=
  let st1 := markAddressWarm st tx.sender
  let st2 := markAddressWarm st1 msg.storageAddress
  tx.accessList.foldl warmAccessListEntry st2

/-- BerlinTransactionExecutor.build_computation: warm the access set, then
defer to the parent executor, abstracted as run. -/
def berlinBuildComputation
    (run : EvmState → Message → AccessListTransaction → Computation × EvmState)
    (st : EvmState) (msg : Message) (tx : AccessListTransaction) :
    Computation × EvmState :=
  run (berlinWarmAccessSet st tx msg) msg tx

/-! ## Flow-control handlers (eth/vm/logic/flow.py) -/

/-- Opcode byte of JUMPDEST. -/
def JUMPDEST : Nat := 0x5b

/-- Stack.pop1_int: pop the top item, converting a byte string through
big_endian_to_int. -/
def stackPop1Int : List StackItem → Option (Nat × List StackItem)
  | [] => none
  | .inl n :: rest => some (n, rest)
  | .inr bs :: rest => some (bigEndianToInt bs, rest)

/-- Valid opcode boundaries of a code body, scanning from the given index
while skipping the given number of PUSH immediate bytes.  Modelled from the
spec: eth/vm/code_stream.py is absent from src; a position is a valid
opcode boundary exactly when it does not fall inside PUSH immediate data. -/
def validPositionsAux : List Nat → Nat → Nat → List Nat
  | [], _, _ => []
  | b :: rest, i, skip =>
    if skip ≠ 0 then validPositionsAux rest (i + 1) (skip - 1)
    else if 0x60 ≤ b ∧ b ≤ 0x7f then
      i :: validPositionsAux rest (i + 1) (b - 0x5f)
    else i :: validPositionsAux rest (i + 1) 0

/-- All valid opcode boundaries of a code body. -/
def validPositions (code : List Nat) : List Nat := validPositionsAux code 0 0

/-- CodeStream.peek: the byte at the program counter, or the STOP byte when
reading past the end of the code. -/
def CodeStream.peek (cs : CodeStream) : Nat := cs.code.getD cs.programCounter 0

/-- CodeStream.is_valid_opcode: the position is inside the code and on a
valid opcode boundary. -/
def CodeStream.isValidOpcode (cs : CodeStream) (position : Nat) : Bool :=
  (validPositions cs.code).contains position

/-- The jump opcode handler. -/
def jump (computation : Computation) : Except VMErr Computation :=
  match stackPop1Int computation.stack with
  | none => .error .insufficientStack
  | some (jumpDest, rest) =>
    let computation1 :=
      { computation with
        stack := rest,
        code := { computation.code with programCounter := jumpDest } }
    if computation1.code.peek ≠ JUMPDEST then .error .invalidJumpDestination
    else if computation1.code.isValidOpcode jumpDest = false then
      .error .invalidInstruction
    else .ok computation1

/-- The jumpi opcode handler. -/
def jumpi (computation : Computation) : Except VMErr Computation :=
  match stackPop1Int computation.stack with
  | none => .error .insufficientStack
  | some (jumpDest, s1) =>
    match stackPop1Int s1 with
    | none => .error .insufficientStack
    | some (checkValue, rest) =>
      if checkValue ≠ 0 then
        let computation1 :=
          { computation with
            stack := rest,
            code := { computation.code with programCounter := jumpDest } }
        if computation1.code.peek ≠ JUMPDEST then .error .invalidJumpDestination
        else if computation1.code.isValidOpcode jumpDest = false then
          .error .invalidInstruction
        else .ok computation1
      else .ok { computation with stack := rest }

/-- Sample message used by witness theorems. -/
def sampleMsg : Message :=
  { sender := [1], storageAddress := [2], value := 5, depth := 3,
    shouldTransferValue := true }

/-- Sample world state used by witness theorems. -/
def sampleState : EvmState :=
  { accounts := [([1], { nonce := 0, balance := 10, code := [] })],
    touched := [], warmAddresses := [], warmSlots := [] }

/-- Sample computation frame carrying an error, used by witness theorems. -/
def sampleErrComp : Computation :=
  { stack := [], memory := [], code := { code := [], programCounter := 0 },
    gasRemaining := 0, gasRefund := 0, output := [], error := some .outOfGas,
    accountsToDelete := [] }

/-- Sample interpreter run returning an errored computation. -/
def sampleRunErr : EvmState → Message → Computation × EvmState :=
  fun s _ => (sampleErrComp, s)

/-- Sample successful computation frame used by witness theorems. -/
def sampleOkComp : Computation :=
  { stack := [], memory := [], code := { code := [], programCounter := 0 },
    gasRemaining := 100, gasRefund := 0, output := [7], error := none,
    accountsToDelete := [] }

/-- Sample interpreter run returning a successful computation. -/
def sampleRunOk : EvmState → Message → Computation × EvmState :=
  fun s _ => (sampleOkComp, s)

/-- Sample message that does not transfer value, used by witness theorems. -/
def sampleMsgNoTransfer : Message := { sampleMsg with shouldTransferValue := false }

/-- Sample computation with an accumulated refund and one queued deletion,
used by witness theorems. -/
def sampleRefundComp : Computation :=
  { sampleOkComp with gasRefund := 3, accountsToDelete := [[9]] }

/-! ## Memory handlers (eth/vm/logic/memory.py) -/

/-- Stack.pop1_bytes: pop the top item, converting an int through
int_to_big_endian. -/
def stackPop1Bytes : List StackItem → Option (List Nat × List StackItem)
  | [] => none
  | .inl n :: rest => some (intToBigEndian n, rest)
  | .inr bs :: rest => some (bs, rest)

/-- Round up to the next multiple of 32 bytes. -/
def ceil32 (n : Nat) : Nat := if n % 32 = 0 then n else n + 32 - n % 32

/-- Left-pad a byte string with zero bytes to the given width, the python
bytes rjust with a zero fill byte. -/
def rjust (bs : List Nat) (width : Nat) : List Nat :=
  List.replicate (width - bs.length) 0 ++ bs

/-- The python slice taking the last n bytes of a byte string. -/
def lastBytes (n : Nat) (bs : List Nat) : List Nat := bs.drop (bs.length - n)

/-- Memory.extend.  Modelled from the spec: eth/vm/memory.py is absent from
src; per the spec memory is zero-extended on access and grown in 32-byte
chunks. -/
def extendMemory (mem : List Nat) (startPosition size : Nat) : List Nat :=
  if size = 0 then mem
  else
    let newSize := ceil32 (startPosition + size)
    if newSize ≤ mem.length then mem
    else mem ++ List.replicate (newSize - mem.length) 0

/-- Memory.write: overwrite size bytes starting at the given position with
the given value (whose length equals size at every call site). -/
def memoryWrite (mem : List Nat) (startPosition size : Nat)
    (value : List Nat) : List Nat :=
  mem.take startPosition ++ value ++ mem.drop (startPosition + size)

/-- The mstore opcode handler. -/
def mstore (computation : Computation) : Except VMErr Computation :=
  match stackPop1Int computation.stack with
  | none => .error .insufficientStack
  | some (startPosition, s1) =>
    match stackPop1Bytes s1 with
    | none => .error .insufficientStack
    | some (value, rest) =>
      let paddedValue := rjust value 32
      let normalizedValue := lastBytes 32 paddedValue
      let mem1 := extendMemory computation.memory startPosition 32
      .ok { computation with
        stack := rest,
        memory := memoryWrite mem1 startPosition 32 normalizedValue }

/-- The mstore8 opcode handler. -/
def mstore8 (computation : Computation) : Except VMErr Computation :=
  match stackPop1Int computation.stack with
  | none => .error .insufficientStack
  | some (startPosition, s1) =>
    match stackPop1Bytes s1 with
    | none => .error .insufficientStack
    | some (value, rest) =>
      let paddedValue := rjust value 1
      let normalizedValue := lastBytes 1 paddedValue
      let mem1 := extendMemory computation.memory startPosition 1
      .ok { computation with
        stack := rest,
        memory := memoryWrite mem1 startPosition 1 normalizedValue }

/-- Sample frame about to run JUMP to a destination inside PUSH data (the
byte there equals JUMPDEST but is immediate data). -/
def sampleJumpComp : Computation :=
  { sampleOkComp with
    stack := [.inl 1],
    code := { code := [96, 91, 91], programCounter := 0 } }

/-- Sample frame about to run JUMPI with a zero condition. -/
def sampleJumpiComp : Computation :=
  { sampleOkComp with
    stack := [.inl 2, .inl 0],
    code := { code := [96, 91, 91], programCounter := 0 } }

/-! ## Receipt bloom validation (eth/vm/base.py VM.validate_receipt) -/

/-- Log entry of a receipt. -/
structure Log where
  address : List Nat
  topics : List Nat
  data : List Nat
  deriving DecidableEq, Repr

/-- Receipt fields used by validate_receipt.  The bloom filter lives outside
src (eth_bloom), so membership in it is modelled as an abstract byte-string
predicate. -/
structure Receipt where
  logs : List Log
  bloomContains : List Nat → Bool

/-- Entries of the already_checked set: a log address (bytes) or a topic
(int), matching the python set of both. -/
abbrev AddrOrTopic := List Nat ⊕ Nat

instance : BEq AddrOrTopic := ⟨fun x y => decide (x = y)⟩

instance : LawfulBEq AddrOrTopic where
  eq_of_beq := by
    intro a b h
    exact of_decide_eq_true h
  rfl := by
    intro a
    exact decide_eq_true rfl

/-- First loop of validate_receipt: check every log address against the
bloom filter, skipping addresses already checked, and record the checked
addresses. -/
def validateReceiptAddresses (r : Receipt) :
    List Log → List AddrOrTopic → Except VMErr (List AddrOrTopic)
  | [], alreadyChecked => .ok alreadyChecked
  | log :: rest, alreadyChecked =>
    if (Sum.inl log.address : AddrOrTopic) ∈ alreadyChecked then
      validateReceiptAddresses r rest alreadyChecked
    else if r.bloomContains log.address = false then .error .validationError
    else validateReceiptAddresses r rest (.inl log.address :: alreadyChecked)

/-- Inner loop of the second half of validate_receipt: check every topic of
one log, serialized to 32 bytes, against the bloom filter. -/
def validateLogTopics (r : Receipt) :
    List Nat → List AddrOrTopic → Except VMErr (List AddrOrTopic)
  | [], alreadyChecked => .ok alreadyChecked
  | topic :: rest, alreadyChecked =>
    if (Sum.inr topic : AddrOrTopic) ∈ alreadyChecked then
      validateLogTopics r rest alreadyChecked
    else if r.bloomContains (serializeUint32 topic) = false then
      .error .validationError
    else validateLogTopics r rest (.inr topic :: alreadyChecked)

/-- Second loop of validate_receipt: check the topics of every log. -/
def validateReceiptTopics (r : Receipt) :
    List Log → List AddrOrTopic → Except VMErr (List AddrOrTopic)
  | [], alreadyChecked => .ok alreadyChecked
  | log :: rest, alreadyChecked =>
    match validateLogTopics r log.topics alreadyChecked with
    | .error e => .error e
    | .ok checked1 => validateReceiptTopics r rest checked1

/-- VM.validate_receipt: raise ValidationError when a log address or a
serialized topic is missing from the bloom filter. -/
def validateReceipt (r : Receipt) : Except VMErr Unit :=
  match validateReceiptAddresses r r.logs [] with
  | .error e => .error e
  | .ok alreadyChecked =>
    match validateReceiptTopics r r.logs alreadyChecked with
    | .error e => .error e
    | .ok _ => .ok ()

/-- Sample receipt whose single log address and single topic are present in
the bloom filter. -/
def sampleReceipt : Receipt :=
  { logs := [{ address := [1], topics := [0], data := [] }],
    bloomContains := fun bs => bs = [1] ∨ bs = serializeUint32 0 }

/-! ## Costless state context manager (eth/vm/base.py VM.in_costless_state) -/

/-- Header fields relevant to the costless-state context manager; the base
fee is optional because pre-London headers do not carry one (the hasattr
check in the source). -/
structure Header where
  baseFeePerGas : Option Nat
  deriving DecidableEq, Repr

/-- The header used to build the costless state: a copy whose
base_fee_per_gas is forced to 0 when the header carries a base fee. -/
def costlessHeader (header : Header) : Header :=
  match header.baseFeePerGas with
  | some _ => { header with baseFeePerGas := some 0 }
  | none => header

/-- State facade revert.  Modelled from the spec: the journal under eth/db
is absent from src; revert drops all changes since the snapshot and
restores exactly the snapshot state. -/
def revertTo (_changed snapshot : EvmState) : EvmState := snapshot

/-- VM.in_costless_state: build a state from the base-fee-free header,
snapshot it, yield it to the body, and revert to the snapshot on scope
exit.  buildState stands for VM.build_state (absent from src) and body for
the code run inside the context; the result pairs the yielded state with
the state left after the scope exits. -/
def inCostlessState (buildState : Header → EvmState) (header : Header)
    (body : EvmState → EvmState) : EvmState × EvmState :=
  let freeHeader := costlessHeader header
  let state := buildState freeHeader
  let snapshot := snapshotOf state
  (state, revertTo (body state) snapshot)

/-- Sample header carrying a base fee, used by witness theorems. -/
def sampleHeader : Header := { baseFeePerGas := some 7 }

/-- Sample frame about to run MSTORE of a two-byte value at position 0. -/
def sampleMstoreComp : Computation :=
  { sampleOkComp with stack := [.inl 0, .inr [7, 8]] }

/-- Sample access-list transaction used by witness theorems. -/
def sampleAccessTx : AccessListTransaction :=
  { sender := [1], accessList := [([5], [1, 2])] }

/-- Sample Berlin parent executor used by witness theorems. -/
def sampleRunBerlin :
    EvmState → Message → AccessListTransaction → Computation × EvmState :=
  fun s _ _ => (sampleOkComp, s)

/-! ## Theorems -/

/-- C1: in London, the effective gas price charged for a transaction (both
the get_gas_price of the state and the gas_price placed in the transaction
context) equals min(max_fee_per_gas, max_priority_fee_per_gas + base_fee),
and the per-gas tip paid to the coinbase (get_tip) equals
min(max_priority_fee_per_gas, max_fee_per_gas - base_fee), for every
transaction and every base fee. -/
theorem london_effective_gas_price_and_tip
    (baseFeePerGas : Int) (tx : LondonTransaction) :
    londonGetGasPrice baseFeePerGas tx
      = min tx.maxFeePerGas (tx.maxPriorityFeePerGas + baseFeePerGas)
    ∧ londonTransactionContextGasPrice baseFeePerGas tx
      = min tx.maxFeePerGas (tx.maxPriorityFeePerGas + baseFeePerGas)
    ∧ londonGetTip baseFeePerGas tx
      = min tx.maxPriorityFeePerGas (tx.maxFeePerGas - baseFeePerGas) := by
  refine ⟨rfl, ?_, ?_⟩
  · exact min_comm _ _
  · exact min_comm _ _

/-- Helper: looking up the key just written returns the new value. -/
lemma lookupAssoc_setAssoc_self {α β : Type} [DecidableEq α]
    (l : List (α × β)) (a : α) (b : β) :
    lookupAssoc (setAssoc l a b) a = some b := by
  induction l with
  | nil => simp [setAssoc, lookupAssoc]
  | cons kv rest ih =>
    obtain ⟨k, v⟩ := kv
    by_cases hk : k = a
    · simp [setAssoc, lookupAssoc, hk]
    · simp [setAssoc, lookupAssoc, hk, ih]

/-- Helper: writing one key does not change lookups of another key. -/
lemma lookupAssoc_setAssoc_ne {α β : Type} [DecidableEq α]
    (l : List (α × β)) (a c : α) (b : β) (h : c ≠ a) :
    lookupAssoc (setAssoc l a b) c = lookupAssoc l c := by
  induction l with
  | nil => simp [setAssoc, lookupAssoc, Ne.symm h]
  | cons kv rest ih =>
    obtain ⟨k, v⟩ := kv
    by_cases hk : k = a
    · subst hk
      simp [setAssoc, lookupAssoc, Ne.symm h]
    · simp only [setAssoc, if_neg hk]
      by_cases hkc : k = c
      · simp [lookupAssoc, hkc]
      · simp [lookupAssoc, hkc, ih]

/-- Helper: removing one key does not change lookups of another key. -/
lemma lookupAssoc_removeAssoc_ne {α β : Type} [DecidableEq α]
    (l : List (α × β)) (a c : α) (h : c ≠ a) :
    lookupAssoc (removeAssoc l a) c = lookupAssoc l c := by
  induction l with
  | nil => simp [removeAssoc]
  | cons kv rest ih =>
    obtain ⟨k, v⟩ := kv
    by_cases hk : k = a
    · subst hk
      simp [removeAssoc, lookupAssoc, Ne.symm h, ih]
    · by_cases hkc : k = c
      · subst hkc
        simp [removeAssoc, lookupAssoc, hk]
      · simp [removeAssoc, lookupAssoc, hk, hkc, ih]

/-- Helper: delta_balance adds to the balance of the target account. -/
lemma getBalance_deltaBalance_self (st : EvmState) (a : Address) (d : Int) :
    getBalance (deltaBalance st a d) a = getBalance st a + d := by
  simp [getBalance, deltaBalance, getAccount, setAccount, lookupAssoc_setAssoc_self]

/-- Helper: delta_balance leaves other balances unchanged. -/
lemma getBalance_deltaBalance_ne (st : EvmState) (a b : Address) (d : Int)
    (h : b ≠ a) : getBalance (deltaBalance st a d) b = getBalance st b := by
  simp [getBalance, deltaBalance, getAccount, setAccount,
    lookupAssoc_setAssoc_ne _ _ _ _ h]

/-- Helper: delete_account leaves other balances unchanged. -/
lemma getBalance_deleteAccount_ne (st : EvmState) (a b : Address)
    (h : b ≠ a) : getBalance (deleteAccount st a) b = getBalance st b := by
  simp [getBalance, deleteAccount, getAccount, lookupAssoc_removeAssoc_ne _ _ _ h]

/-- Helper: sweeping a list of accounts for deletion does not change the
balance of an address outside the list. -/
lemma getBalance_foldl_deleteAccount (l : List Address) (st : EvmState)
    (b : Address) (h : b ∉ l) :
    getBalance (l.foldl (fun s a => deleteAccount s a) st) b = getBalance st b := by
  induction l generalizing st with
  | nil => rfl
  | cons a rest ih =>
    simp only [List.mem_cons, not_or] at h
    rw [List.foldl_cons, ih _ h.2, getBalance_deleteAccount_ne _ _ _ h.1]

/-- Helper: every successful run of apply_message respects the depth bound
and either reverted to the entry snapshot (on a computation error) or
returned the interpreter result unchanged. -/
lemma applyMessage_ok_elim
    (run : EvmState → Message → Computation × EvmState)
    (st : EvmState) (msg : Message) (comp : Computation) (stF : EvmState)
    (h : applyMessage run st msg = .ok (comp, stF)) :
    msg.depth ≤ STACK_DEPTH_LIMIT ∧
    ((comp.isError = true ∧ stF = st) ∨
     (comp.isError = false ∧ ∃ stMid : EvmState, run stMid msg = (comp, stF))) := by
  by_cases hd : msg.depth > STACK_DEPTH_LIMIT
  · simp [applyMessage, hd] at h
  · refine ⟨by omega, ?_⟩
    by_cases ht : msg.shouldTransferValue = true ∧ msg.value ≠ 0
    · by_cases hb : getBalance st msg.sender < (msg.value : Int)
      · simp [applyMessage, hd, ht, hb] at h
      · set st2 := touchAccount
          (deltaBalance (deltaBalance st msg.sender (-(msg.value : Int)))
            msg.storageAddress (msg.value : Int)) msg.storageAddress with hst2
        by_cases he : (run st2 msg).1.isError = true
        · simp [applyMessage, hd, ht, hb, ← hst2, he, snapshotOf] at h
          exact Or.inl ⟨by rw [← h.1]; exact he, h.2.symm⟩
        · simp [applyMessage, hd, ht, hb, ← hst2, he, snapshotOf] at h
          rw [h] at he
          exact Or.inr ⟨by simpa using he, ⟨st2, h⟩⟩
    · set st2 := touchAccount st msg.storageAddress with hst2
      by_cases he : (run st2 msg).1.isError = true
      · simp [applyMessage, hd, ht, ← hst2, he, snapshotOf] at h
        exact Or.inl ⟨by rw [← h.1]; exact he, h.2.symm⟩
      · simp [applyMessage, hd, ht, ← hst2, he, snapshotOf] at h
        rw [h] at he
        exact Or.inr ⟨by simpa using he, ⟨st2, h⟩⟩

/-- C3: apply_message takes a state snapshot on entry; when the returned
computation carries an error the final state is exactly that entry snapshot
(so the value transfer and every other effect of the message is undone), and
when it carries no error the final state is exactly the state produced by
the interpreter run on the post-transfer state, that is, the committed
effects survive into the enclosing scope. -/
theorem applyMessage_snapshot_revert_commit
    (run : EvmState → Message → Computation × EvmState)
    (st : EvmState) (msg : Message) (comp : Computation) (stF : EvmState)
    (h : applyMessage run st msg = .ok (comp, stF)) :
    (comp.isError = true → stF = snapshotOf st)
    ∧ (comp.isError = false →
        ∃ stMid : EvmState, run stMid msg = (comp, stF)) := by
  rcases applyMessage_ok_elim run st msg comp stF h with ⟨-, hcase⟩
  constructor
  · intro herr
    rcases hcase with ⟨-, hst⟩ | ⟨hfalse, -⟩
    · exact hst
    · rw [herr] at hfalse; cases hfalse
  · intro hok
    rcases hcase with ⟨htrue, -⟩ | ⟨-, hmid⟩
    · rw [hok] at htrue; cases htrue
    · exact hmid

/-- Witness for C3 at a concrete erroring run: the state after apply_message
equals the entry state. -/
theorem applyMessage_snapshot_revert_commit_witness :
    (sampleErrComp.isError = true → sampleState = snapshotOf sampleState)
    ∧ (sampleErrComp.isError = false →
        ∃ stMid : EvmState, sampleRunErr stMid sampleMsg
          = (sampleErrComp, sampleState)) :=
  applyMessage_snapshot_revert_commit sampleRunErr sampleState sampleMsg
    sampleErrComp sampleState (by rfl)

/-- C6: a message whose depth exceeds 1024 makes apply_message raise
StackDepthLimit no matter which interpreter is supplied, so the bytecode run
for that message never happens; conversely any apply_message call that
returns a computation was executed at depth at most 1024. -/
theorem applyMessage_stack_depth_limit (st : EvmState) (msg : Message) :
    (∀ run : EvmState → Message → Computation × EvmState,
       msg.depth > STACK_DEPTH_LIMIT →
         applyMessage run st msg = .error .stackDepthLimit)
    ∧ (∀ (run : EvmState → Message → Computation × EvmState)
         (comp : Computation) (stF : EvmState),
         applyMessage run st msg = .ok (comp, stF) →
           msg.depth ≤ STACK_DEPTH_LIMIT) := by
  constructor
  · intro run hd
    simp [applyMessage, hd]
  · intro run comp stF h
    exact (applyMessage_ok_elim run st msg comp stF h).1

/-- Witness for C6 at depth 1025: apply_message raises StackDepthLimit. -/
theorem applyMessage_stack_depth_limit_witness :
    applyMessage sampleRunOk sampleState { sampleMsg with depth := 1025 }
      = .error .stackDepthLimit :=
  (applyMessage_stack_depth_limit sampleState
      { sampleMsg with depth := 1025 }).1 sampleRunOk (by decide)

/-- Helper: warming storage slots does not change the warm address set, and
only adds warm slots. -/
lemma foldl_markStorageWarm_fields (a : Address) (slots : List Nat)
    (s : EvmState) :
    (slots.foldl (fun s2 slot => markStorageWarm s2 a slot) s).warmAddresses
      = s.warmAddresses
    ∧ (∀ p ∈ s.warmSlots,
        p ∈ (slots.foldl (fun s2 slot => markStorageWarm s2 a slot) s).warmSlots)
    ∧ ∀ slot ∈ slots,
        (a, slot)
          ∈ (slots.foldl (fun s2 slot => markStorageWarm s2 a slot) s).warmSlots := by
  induction slots generalizing s with
  | nil => simp
  | cons slot rest ih =>
    refine ⟨?_, ?_, ?_⟩
    · rw [List.foldl_cons, (ih (markStorageWarm s a slot)).1, markStorageWarm]
    · intro p hp
      rw [List.foldl_cons]
      exact (ih (markStorageWarm s a slot)).2.1 p (by simp [markStorageWarm, hp])
    · intro s2 hs2
      rw [List.foldl_cons]
      rcases List.mem_cons.mp hs2 with hEq | hMem
      · subst hEq
        exact (ih (markStorageWarm s a s2)).2.1 _ (by simp [markStorageWarm])
      · exact (ih (markStorageWarm s a slot)).2.2 s2 hMem

/-- Helper: the access-list loop only adds warm addresses and slots, and
warms every entry it visits. -/
lemma foldl_warmAccessListEntry_mem (l : List (Address × List Nat))
    (st : EvmState) :
    (∀ x ∈ st.warmAddresses,
        x ∈ (l.foldl warmAccessListEntry st).warmAddresses)
    ∧ (∀ p ∈ st.warmSlots, p ∈ (l.foldl warmAccessListEntry st).warmSlots)
    ∧ ∀ e ∈ l,
        e.1 ∈ (l.foldl warmAccessListEntry st).warmAddresses
        ∧ ∀ slot ∈ e.2, (e.1, slot) ∈ (l.foldl warmAccessListEntry st).warmSlots := by
  induction l generalizing st with
  | nil => simp
  | cons e rest ih =>
    have haddr : (warmAccessListEntry st e).warmAddresses
        = e.1 :: st.warmAddresses := by
      rw [warmAccessListEntry,
        (foldl_markStorageWarm_fields e.1 e.2 (markAddressWarm st e.1)).1]
      rfl
    refine ⟨?_, ?_, ?_⟩
    · intro x hx
      rw [List.foldl_cons]
      exact (ih (warmAccessListEntry st e)).1 x (by simp [haddr, hx])
    · intro p hp
      rw [List.foldl_cons]
      refine (ih (warmAccessListEntry st e)).2.1 p ?_
      exact (foldl_markStorageWarm_fields e.1 e.2 (markAddressWarm st e.1)).2.1 p
        (by simpa [markAddressWarm] using hp)
    · intro e2 he2
      rcases List.mem_cons.mp he2 with hEq | hMem
      · subst hEq
        constructor
        · rw [List.foldl_cons]
          exact (ih (warmAccessListEntry st e2)).1 e2.1 (by simp [haddr])
        · intro slot hslot
          rw [List.foldl_cons]
          refine (ih (warmAccessListEntry st e2)).2.1 _ ?_
          exact (foldl_markStorageWarm_fields e2.1 e2.2
            (markAddressWarm st e2.1)).2.2 slot hslot
      · rw [List.foldl_cons]
        exact (ih (warmAccessListEntry st e)).2.2 e2 hMem

/-- C4: in the Berlin executor, before the parent executor builds and runs
the top-level computation, the warming phase has made warm the transaction
sender, the message storage address, every address and every address-slot
pair from the access list, and all precompile addresses (the latter because
the state treats precompiles as always warm). -/
theorem berlin_build_computation_warms (precompiles : List Address)
    (run : EvmState → Message → AccessListTransaction → Computation × EvmState)
    (st : EvmState) (msg : Message) (tx : AccessListTransaction) :
    berlinBuildComputation run st msg tx
      = run (berlinWarmAccessSet st tx msg) msg tx
    ∧ isAddressWarm precompiles (berlinWarmAccessSet st tx msg) tx.sender = true
    ∧ isAddressWarm precompiles (berlinWarmAccessSet st tx msg)
        msg.storageAddress = true
    ∧ (∀ e ∈ tx.accessList,
        isAddressWarm precompiles (berlinWarmAccessSet st tx msg) e.1 = true
        ∧ ∀ slot ∈ e.2,
            isStorageWarm (berlinWarmAccessSet st tx msg) e.1 slot = true)
    ∧ ∀ p ∈ precompiles,
        isAddressWarm precompiles (berlinWarmAccessSet st tx msg) p = true := by
  have hbase := foldl_warmAccessListEntry_mem tx.accessList
    (markAddressWarm (markAddressWarm st tx.sender) msg.storageAddress)
  refine ⟨rfl, ?_, ?_, ?_, ?_⟩
  · have : tx.sender ∈ (berlinWarmAccessSet st tx msg).warmAddresses := by
      rw [berlinWarmAccessSet]
      exact hbase.1 tx.sender (by simp [markAddressWarm])
    simp [isAddressWarm, this]
  · have : msg.storageAddress ∈ (berlinWarmAccessSet st tx msg).warmAddresses := by
      rw [berlinWarmAccessSet]
      exact hbase.1 msg.storageAddress (by simp [markAddressWarm])
    simp [isAddressWarm, this]
  · intro e he
    constructor
    · have : e.1 ∈ (berlinWarmAccessSet st tx msg).warmAddresses := by
        rw [berlinWarmAccessSet]
        exact (hbase.2.2 e he).1
      simp [isAddressWarm, this]
    · intro slot hslot
      have : (e.1, slot) ∈ (berlinWarmAccessSet st tx msg).warmSlots := by
        rw [berlinWarmAccessSet]
        exact (hbase.2.2 e he).2 slot hslot
      simp [isStorageWarm, this]
  · intro p hp
    simp [isAddressWarm, hp]

/-- Witness for C4 at a concrete access list: the listed address and slot
are warm after the warming phase. -/
theorem berlin_build_computation_warms_witness :
    isAddressWarm [[3]] (berlinWarmAccessSet sampleState sampleAccessTx sampleMsg)
      [5] = true
    ∧ isStorageWarm (berlinWarmAccessSet sampleState sampleAccessTx sampleMsg)
      [5] 2 = true :=
  ⟨((berlin_build_computation_warms [[3]] sampleRunBerlin sampleState sampleMsg
      sampleAccessTx).2.2.2.1 ([5], [1, 2]) (by decide)).1,
   ((berlin_build_computation_warms [[3]] sampleRunBerlin sampleState sampleMsg
      sampleAccessTx).2.2.2.1 ([5], [1, 2]) (by decide)).2 2 (by decide)⟩

/-- C5: at contract-creation finalization a code-deposit charge of
GAS_CODEDEPOSIT times the output length is consumed.  In Frontier, when the
charge exceeds the remaining gas the create still returns a non-error
computation whose output is silently emptied and no code is stored (the
state is left exactly as the init-code run produced it); when the gas
suffices the charge is deducted and the code is stored.  From Spurious
Dragon, a VMError while depositing (output longer than the EIP-170 limit of
24,576 bytes, or insufficient gas for the charge) sets the error on the
computation and reverts the state to the snapshot taken at the start of the
create. -/
theorem apply_create_message_code_deposit (gasCodedeposit : Nat) :
    (∀ (run : EvmState → Message → Computation × EvmState)
       (st : EvmState) (msg : Message) (comp : Computation) (st1 : EvmState),
       applyMessage run st msg = .ok (comp, st1) →
       comp.error = none →
       comp.output ≠ [] →
       ((comp.gasRemaining < comp.output.length * gasCodedeposit →
           frontierApplyCreateMessage gasCodedeposit run st msg
             = .ok ({ comp with output := [] }, st1)
           ∧ ({ comp with output := [] } : Computation).error = none) ∧
        (comp.output.length * gasCodedeposit ≤ comp.gasRemaining →
           frontierApplyCreateMessage gasCodedeposit run st msg
             = .ok ({ comp with gasRemaining :=
                       comp.gasRemaining - comp.output.length * gasCodedeposit },
                    setCode st1 msg.storageAddress comp.output))))
    ∧ (∀ (run : EvmState → Message → Computation × EvmState)
         (st : EvmState) (msg : Message) (comp : Computation) (st1 : EvmState),
       applyMessage run (incrementNonce st msg.storageAddress) msg
         = .ok (comp, st1) →
       comp.error = none →
       comp.output ≠ [] →
       ((comp.output.length > EIP170_CODE_SIZE_LIMIT →
           spuriousDragonApplyCreateMessage gasCodedeposit run st msg
             = .ok ({ comp with error := some .outOfGas }, snapshotOf st)) ∧
        (comp.output.length ≤ EIP170_CODE_SIZE_LIMIT →
         comp.gasRemaining < comp.output.length * gasCodedeposit →
           spuriousDragonApplyCreateMessage gasCodedeposit run st msg
             = .ok ({ comp with error := some .outOfGas }, snapshotOf st)) ∧
        (comp.output.length ≤ EIP170_CODE_SIZE_LIMIT →
         comp.output.length * gasCodedeposit ≤ comp.gasRemaining →
           spuriousDragonApplyCreateMessage gasCodedeposit run st msg
             = .ok ({ comp with gasRemaining :=
                       comp.gasRemaining - comp.output.length * gasCodedeposit },
                    setCode st1 msg.storageAddress comp.output)))) := by
  constructor
  · intro run st msg comp st1 h herr hout
    have hisErr : comp.isError = false := by simp [Computation.isError, herr]
    constructor
    · intro hgas
      constructor
      · simp only [frontierApplyCreateMessage, h]
        simp [hisErr, hout, consumeGas, hgas]
      · simpa using herr
    · intro hgas
      simp only [frontierApplyCreateMessage, h]
      simp [hisErr, hout, consumeGas, Nat.not_lt.mpr hgas]
  · intro run st msg comp st1 h herr hout
    have hisErr : comp.isError = false := by simp [Computation.isError, herr]
    refine ⟨?_, ?_, ?_⟩
    · intro hbig
      simp only [spuriousDragonApplyCreateMessage, h]
      simp [hisErr, hout, validateContractCode, hbig, snapshotOf]
    · intro hsize hgas
      simp only [spuriousDragonApplyCreateMessage, h]
      simp [hisErr, hout, validateContractCode, Nat.not_lt.mpr hsize,
        consumeGas, hgas, snapshotOf]
    · intro hsize hgas
      simp only [spuriousDragonApplyCreateMessage, h]
      simp [hisErr, hout, validateContractCode, Nat.not_lt.mpr hsize,
        consumeGas, Nat.not_lt.mpr hgas]

/-- C2: the gas refund credited at transaction finalization equals
min(accumulated_refund, gas_used / quotient), where the quotient is 2 before
London (with the selfdestruct refund added once per account queued for
deletion) and 5 from London (with no selfdestruct refund); the sender is
then credited (gas_remaining + refund) times the gas price, for every
fork-specific refund rule. -/
theorem calculate_gas_refund_and_sender_credit
    (refundSelfdestruct gasPrice tip txGas : Nat) (sender coinbase : Address)
    (comp : Computation) (st : EvmState) (gasUsed : Nat)
    (hsc : sender ≠ coinbase) (hdel : sender ∉ comp.accountsToDelete) :
    frontierCalculateGasRefund refundSelfdestruct comp gasUsed
      = min (comp.gasRefund + refundSelfdestruct * comp.accountsToDelete.length)
          (gasUsed / 2)
    ∧ londonCalculateGasRefund comp gasUsed = min comp.gasRefund (gasUsed / 5)
    ∧ ∀ calcRefund : Computation → Nat → Nat,
        getBalance
            (finalizeComputation calcRefund gasPrice tip txGas sender coinbase
              comp st) sender
          = getBalance st sender
            + (((calcRefund comp (txGas - comp.gasRemaining)
                  + comp.gasRemaining) * gasPrice : Nat) : Int) := by
  refine ⟨?_, rfl, ?_⟩
  · by_cases hn : comp.accountsToDelete.length = 0
    · simp [frontierCalculateGasRefund, hn, MAX_REFUND_QUOTIENT]
    · simp [frontierCalculateGasRefund, hn, refundGas, MAX_REFUND_QUOTIENT]
  · intro calcRefund
    simp only [finalizeComputation]
    rw [getBalance_foldl_deleteAccount _ _ _ hdel,
      getBalance_deltaBalance_ne _ _ _ _ hsc]
    by_cases hz : (calcRefund comp (txGas - comp.gasRemaining)
        + comp.gasRemaining) * gasPrice = 0
    · simp [hz]
    · simp [hz, getBalance_deltaBalance_self]

/-- Witness for C2 at a concrete computation with one queued deletion and a
sender distinct from the coinbase. -/
theorem calculate_gas_refund_and_sender_credit_witness :
    frontierCalculateGasRefund 24000 sampleRefundComp 100000
      = min (sampleRefundComp.gasRefund
              + 24000 * sampleRefundComp.accountsToDelete.length) (100000 / 2)
    ∧ londonCalculateGasRefund sampleRefundComp 100000
      = min sampleRefundComp.gasRefund (100000 / 5)
    ∧ ∀ calcRefund : Computation → Nat → Nat,
        getBalance
            (finalizeComputation calcRefund 7 2 21100 [1] [3]
              sampleRefundComp sampleState) [1]
          = getBalance sampleState [1]
            + (((calcRefund sampleRefundComp
                  (21100 - sampleRefundComp.gasRemaining)
                  + sampleRefundComp.gasRemaining) * 7 : Nat) : Int) :=
  calculate_gas_refund_and_sender_credit 24000 7 2 21100 [1] [3]
    sampleRefundComp sampleState 100000 (by decide) (by decide)

/-- Witness for C5 at a concrete Frontier create whose deposit charge of
200 gas per byte exceeds the remaining 100 gas: the create returns with an
empty output and no error. -/
theorem apply_create_message_code_deposit_witness :
    frontierApplyCreateMessage 200 sampleRunOk sampleState sampleMsgNoTransfer
      = .ok ({ sampleOkComp with output := [] }, touchAccount sampleState [2])
    ∧ ({ sampleOkComp with output := [] } : Computation).error = none :=
  ((apply_create_message_code_deposit 200).1 sampleRunOk sampleState
      sampleMsgNoTransfer sampleOkComp (touchAccount sampleState [2])
      (by rfl) (by rfl) (by decide)).1 (by decide)

/-- C7: JUMP sets the program counter to the popped destination, raises
InvalidJumpDestination when the byte there is not the JUMPDEST opcode, and
raises InvalidInstruction when the destination byte is JUMPDEST but the
destination is not on a valid opcode boundary (it falls inside PUSH
immediate data); JUMPI performs the same jump and the same two checks
exactly when its popped condition is nonzero, and performs no jump and no
destination check when the condition is zero. -/
theorem jump_jumpi_destination_checks (comp : Computation)
    (jumpDest checkValue : Nat) (rest : List StackItem) :
    (comp.stack = .inl jumpDest :: rest →
       ({ comp.code with programCounter := jumpDest } : CodeStream).peek
           ≠ JUMPDEST →
         jump comp = .error .invalidJumpDestination)
    ∧ (comp.stack = .inl jumpDest :: rest →
       ({ comp.code with programCounter := jumpDest } : CodeStream).peek
           = JUMPDEST →
       ({ comp.code with programCounter := jumpDest } : CodeStream).isValidOpcode
           jumpDest = false →
         jump comp = .error .invalidInstruction)
    ∧ (comp.stack = .inl jumpDest :: rest →
       ({ comp.code with programCounter := jumpDest } : CodeStream).peek
           = JUMPDEST →
       ({ comp.code with programCounter := jumpDest } : CodeStream).isValidOpcode
           jumpDest = true →
         jump comp = .ok { comp with
           stack := rest,
           code := { comp.code with programCounter := jumpDest } })
    ∧ (comp.stack = .inl jumpDest :: .inl checkValue :: rest →
        (checkValue ≠ 0 →
           jumpi comp = jump { comp with stack := .inl jumpDest :: rest })
        ∧ (checkValue = 0 → jumpi comp = .ok { comp with stack := rest })) := by
  refine ⟨?_, ?_, ?_, ?_⟩
  · intro h hpeek
    simp [jump, stackPop1Int, h, hpeek]
  · intro h hpeek hval
    simp [jump, stackPop1Int, h, hpeek, hval]
  · intro h hpeek hval
    simp [jump, stackPop1Int, h, hpeek, hval]
  · intro h
    constructor
    · intro hc
      simp [jumpi, jump, stackPop1Int, h, hc]
    · intro hc
      simp [jumpi, stackPop1Int, h, hc]

/-- Witness for C7: jumping to a JUMPDEST byte lying inside PUSH immediate
data raises InvalidInstruction, and JUMPI with a zero condition pops its
arguments and does nothing else. -/
theorem jump_jumpi_destination_checks_witness :
    jump sampleJumpComp = .error .invalidInstruction
    ∧ jumpi sampleJumpiComp = .ok { sampleJumpiComp with stack := [] } :=
  ⟨(jump_jumpi_destination_checks sampleJumpComp 1 0 []).2.1
      (by rfl) (by decide) (by decide),
   ((jump_jumpi_destination_checks sampleJumpiComp 2 0 []).2.2.2
      (by rfl)).2 rfl⟩

/-- Helper: rounding up to a 32-byte boundary never shrinks. -/
lemma ceil32_ge (n : Nat) : n ≤ ceil32 n := by
  have h32 : n % 32 < 32 := Nat.mod_lt _ (by omega)
  by_cases h : n % 32 = 0
  · simp [ceil32, h]
  · simp [ceil32, h]
    omega

/-- Helper: after extending, memory covers the accessed range. -/
lemma extendMemory_covers (mem : List Nat) (pos size : Nat) (hs : size ≠ 0) :
    pos + size ≤ (extendMemory mem pos size).length := by
  have hge := ceil32_ge (pos + size)
  by_cases hle : ceil32 (pos + size) ≤ mem.length
  · simp [extendMemory, hs, hle]
    omega
  · simp [extendMemory, hs, hle]
    omega

/-- Helper: a memory write places exactly its value at the write position
and leaves the bytes before the position unchanged. -/
lemma memoryWrite_slice (mem : List Nat) (pos : Nat) (value : List Nat)
    (hcov : pos + value.length ≤ mem.length) :
    ((memoryWrite mem pos value.length value).drop pos).take value.length = value
    ∧ (memoryWrite mem pos value.length value).take pos = mem.take pos := by
  have htl : (mem.take pos).length = pos := by
    rw [List.length_take]
    omega
  constructor
  · have h1 := List.drop_left (mem.take pos)
      (value ++ mem.drop (pos + value.length))
    rw [htl] at h1
    rw [memoryWrite, List.append_assoc, h1]
    exact List.take_left value (mem.drop (pos + value.length))
  · have h2 := List.take_left (mem.take pos)
      (value ++ mem.drop (pos + value.length))
    rw [htl] at h2
    rw [memoryWrite, List.append_assoc, h2]

/-- C10: MSTORE normalizes the popped value to exactly 32 bytes (left-pad
with zeros when short, keep only the low-order 32 bytes when long), extends
the memory to cover the 32 bytes starting at the popped position, and
writes exactly those 32 normalized bytes there, leaving the bytes before
the position unchanged; MSTORE8 behaves the same with a single byte, the
lowest byte of the value. -/
theorem mstore_mstore8_normalized_write (comp : Computation)
    (pos : Nat) (v : List Nat) (rest : List StackItem)
    (h : comp.stack = .inl pos :: .inr v :: rest) :
    (lastBytes 32 (rjust v 32)).length = 32
    ∧ (v.length ≤ 32 →
        lastBytes 32 (rjust v 32) = List.replicate (32 - v.length) 0 ++ v)
    ∧ (32 ≤ v.length → lastBytes 32 (rjust v 32) = v.drop (v.length - 32))
    ∧ pos + 32 ≤ (extendMemory comp.memory pos 32).length
    ∧ mstore comp = .ok { comp with
        stack := rest,
        memory := memoryWrite (extendMemory comp.memory pos 32) pos 32
          (lastBytes 32 (rjust v 32)) }
    ∧ ((memoryWrite (extendMemory comp.memory pos 32) pos 32
          (lastBytes 32 (rjust v 32))).drop pos).take 32
        = lastBytes 32 (rjust v 32)
    ∧ (memoryWrite (extendMemory comp.memory pos 32) pos 32
          (lastBytes 32 (rjust v 32))).take pos
        = (extendMemory comp.memory pos 32).take pos
    ∧ (lastBytes 1 (rjust v 1)).length = 1
    ∧ (v ≠ [] → lastBytes 1 (rjust v 1) = v.drop (v.length - 1))
    ∧ pos + 1 ≤ (extendMemory comp.memory pos 1).length
    ∧ mstore8 comp = .ok { comp with
        stack := rest,
        memory := memoryWrite (extendMemory comp.memory pos 1) pos 1
          (lastBytes 1 (rjust v 1)) } := by
  have hlen32 : (lastBytes 32 (rjust v 32)).length = 32 := by
    simp [lastBytes, rjust]
    omega
  have hlen1 : (lastBytes 1 (rjust v 1)).length = 1 := by
    simp [lastBytes, rjust]
    omega
  have hcov32 := extendMemory_covers comp.memory pos 32 (by omega)
  have hcov1 := extendMemory_covers comp.memory pos 1 (by omega)
  have hslice32 := memoryWrite_slice (extendMemory comp.memory pos 32) pos
    (lastBytes 32 (rjust v 32)) (by rw [hlen32]; exact hcov32)
  rw [hlen32] at hslice32
  refine ⟨hlen32, ?_, ?_, hcov32, ?_, hslice32.1, hslice32.2, hlen1, ?_,
    hcov1, ?_⟩
  · intro hv
    have hz : (rjust v 32).length - 32 = 0 := by
      simp [rjust]
      omega
    rw [lastBytes, hz, List.drop_zero, rjust]
  · intro hv
    have hz : 32 - v.length = 0 := by omega
    rw [lastBytes, rjust, hz, List.replicate_zero, List.nil_append]
  · simp [mstore, stackPop1Int, stackPop1Bytes, h]
  · intro hv
    have hv1 : 1 ≤ v.length := List.length_pos.mpr hv
    have hz : 1 - v.length = 0 := by omega
    rw [lastBytes, rjust, hz, List.replicate_zero, List.nil_append]
  · simp [mstore8, stackPop1Int, stackPop1Bytes, h]

/-- Witness for C10 at a concrete MSTORE of the two-byte value 0x0708 at
position 0: the value written is the value left-padded to 32 bytes. -/
theorem mstore_mstore8_normalized_write_witness :
    mstore sampleMstoreComp = .ok { sampleMstoreComp with
      stack := [],
      memory := memoryWrite (extendMemory sampleMstoreComp.memory 0 32) 0 32
        (lastBytes 32 (rjust [7, 8] 32)) }
    ∧ lastBytes 32 (rjust [7, 8] 32) = List.replicate 30 0 ++ [7, 8] :=
  ⟨(mstore_mstore8_normalized_write sampleMstoreComp 0 [7, 8] []
      (by rfl)).2.2.2.2.1,
   (mstore_mstore8_normalized_write sampleMstoreComp 0 [7, 8] []
      (by rfl)).2.1 (by decide)⟩

/-- Helper: when the address loop succeeds, every log address is in the
bloom filter; checked addresses stay bloom-true and no topic entries are
added. -/
lemma validateReceiptAddresses_ok_sound (r : Receipt) (logs : List Log) :
    ∀ checked checked1 : List AddrOrTopic,
      (∀ a : List Nat, (Sum.inl a : AddrOrTopic) ∈ checked →
        r.bloomContains a = true) →
      validateReceiptAddresses r logs checked = .ok checked1 →
      (∀ log ∈ logs, r.bloomContains log.address = true)
      ∧ (∀ a : List Nat, (Sum.inl a : AddrOrTopic) ∈ checked1 →
          r.bloomContains a = true)
      ∧ (∀ t : Nat, (Sum.inr t : AddrOrTopic) ∈ checked1 →
          (Sum.inr t : AddrOrTopic) ∈ checked) := by
  induction logs with
  | nil =>
    intro checked checked1 hc h
    simp only [validateReceiptAddresses, Except.ok.injEq] at h
    subst h
    exact ⟨by simp, hc, fun t ht => ht⟩
  | cons log rest ih =>
    intro checked checked1 hc h
    simp only [validateReceiptAddresses] at h
    by_cases hm : (Sum.inl log.address : AddrOrTopic) ∈ checked
    · rw [if_pos hm] at h
      obtain ⟨h1, h2, h3⟩ := ih checked checked1 hc h
      refine ⟨?_, h2, h3⟩
      intro lg hlg
      rcases List.mem_cons.mp hlg with hEq | hMem
      · subst hEq
        exact hc _ hm
      · exact h1 lg hMem
    · rw [if_neg hm] at h
      by_cases hb : r.bloomContains log.address = false
      · rw [if_pos hb] at h
        cases h
      · rw [if_neg hb] at h
        have hbt : r.bloomContains log.address = true := by
          cases hblv : r.bloomContains log.address
          · exact absurd hblv hb
          · rfl
        have hc' : ∀ a : List Nat,
            (Sum.inl a : AddrOrTopic) ∈ (Sum.inl log.address :: checked :
              List AddrOrTopic) → r.bloomContains a = true := by
          intro a ha
          rcases List.mem_cons.mp ha with hEq | hMem
          · obtain ⟨rfl⟩ : a = log.address := by
              simpa using hEq
            exact hbt
          · exact hc a hMem
        obtain ⟨h1, h2, h3⟩ := ih _ checked1 hc' h
        refine ⟨?_, h2, ?_⟩
        · intro lg hlg
          rcases List.mem_cons.mp hlg with hEq | hMem
          · subst hEq
            exact hbt
          · exact h1 lg hMem
        · intro t ht
          have := h3 t ht
          rcases List.mem_cons.mp this with hEq | hMem
          · simp at hEq
          · exact hMem

/-- Helper: when every log address is in the bloom filter the address loop
succeeds. -/
lemma validateReceiptAddresses_complete (r : Receipt) (logs : List Log)
    (hall : ∀ log ∈ logs, r.bloomContains log.address = true) :
    ∀ checked : List AddrOrTopic,
      ∃ checked1, validateReceiptAddresses r logs checked = .ok checked1 := by
  induction logs with
  | nil =>
    intro checked
    exact ⟨checked, rfl⟩
  | cons log rest ih =>
    intro checked
    have hlog : r.bloomContains log.address = true := hall log (by simp)
    have hrest : ∀ lg ∈ rest, r.bloomContains lg.address = true :=
      fun lg hlg => hall lg (by simp [hlg])
    by_cases hm : (Sum.inl log.address : AddrOrTopic) ∈ checked
    · obtain ⟨c1, hc1⟩ := ih hrest checked
      exact ⟨c1, by simp only [validateReceiptAddresses, if_pos hm]; exact hc1⟩
    · obtain ⟨c1, hc1⟩ := ih hrest (.inl log.address :: checked)
      refine ⟨c1, ?_⟩
      simp only [validateReceiptAddresses, if_neg hm, hlog]
      simpa using hc1

/-- Helper: the address loop either succeeds or raises ValidationError. -/
lemma validateReceiptAddresses_total (r : Receipt) (logs : List Log) :
    ∀ checked : List AddrOrTopic,
      (∃ checked1, validateReceiptAddresses r logs checked = .ok checked1)
      ∨ validateReceiptAddresses r logs checked = .error .validationError := by
  induction logs with
  | nil =>
    intro checked
    exact Or.inl ⟨checked, rfl⟩
  | cons log rest ih =>
    intro checked
    by_cases hm : (Sum.inl log.address : AddrOrTopic) ∈ checked
    · rcases ih checked with ⟨c1, hc1⟩ | herr
      · exact Or.inl ⟨c1, by simp only [validateReceiptAddresses, if_pos hm]; exact hc1⟩
      · exact Or.inr (by simp only [validateReceiptAddresses, if_pos hm]; exact herr)
    · by_cases hb : r.bloomContains log.address = false
      · exact Or.inr (by simp only [validateReceiptAddresses, if_neg hm, if_pos hb])
      · rcases ih (.inl log.address :: checked) with ⟨c1, hc1⟩ | herr
        · exact Or.inl ⟨c1,
            by simp only [validateReceiptAddresses, if_neg hm, if_neg hb]; exact hc1⟩
        · exact Or.inr
            (by simp only [validateReceiptAddresses, if_neg hm, if_neg hb]; exact herr)

/-- Helper: when the topic loop of one log succeeds, every topic of that
log is in the bloom filter and checked topics stay bloom-true. -/
lemma validateLogTopics_ok_sound (r : Receipt) (topics : List Nat) :
    ∀ checked checked1 : List AddrOrTopic,
      (∀ t : Nat, (Sum.inr t : AddrOrTopic) ∈ checked →
        r.bloomContains (serializeUint32 t) = true) →
      validateLogTopics r topics checked = .ok checked1 →
      (∀ t ∈ topics, r.bloomContains (serializeUint32 t) = true)
      ∧ (∀ t : Nat, (Sum.inr t : AddrOrTopic) ∈ checked1 →
          r.bloomContains (serializeUint32 t) = true) := by
  induction topics with
  | nil =>
    intro checked checked1 hc h
    simp only [validateLogTopics, Except.ok.injEq] at h
    subst h
    exact ⟨by simp, hc⟩
  | cons topic rest ih =>
    intro checked checked1 hc h
    simp only [validateLogTopics] at h
    by_cases hm : (Sum.inr topic : AddrOrTopic) ∈ checked
    · rw [if_pos hm] at h
      obtain ⟨h1, h2⟩ := ih checked checked1 hc h
      refine ⟨?_, h2⟩
      intro t ht
      rcases List.mem_cons.mp ht with hEq | hMem
      · subst hEq
        exact hc _ hm
      · exact h1 t hMem
    · rw [if_neg hm] at h
      by_cases hb : r.bloomContains (serializeUint32 topic) = false
      · rw [if_pos hb] at h
        cases h
      · rw [if_neg hb] at h
        have hbt : r.bloomContains (serializeUint32 topic) = true := by
          cases hblv : r.bloomContains (serializeUint32 topic)
          · exact absurd hblv hb
          · rfl
        have hc' : ∀ t : Nat,
            (Sum.inr t : AddrOrTopic) ∈ (Sum.inr topic :: checked :
              List AddrOrTopic) → r.bloomContains (serializeUint32 t) = true := by
          intro t ht
          rcases List.mem_cons.mp ht with hEq | hMem
          · obtain ⟨rfl⟩ : t = topic := by simpa using hEq
            exact hbt
          · exact hc t hMem
        obtain ⟨h1, h2⟩ := ih _ checked1 hc' h
        refine ⟨?_, h2⟩
        intro t ht
        rcases List.mem_cons.mp ht with hEq | hMem
        · subst hEq
          exact hbt
        · exact h1 t hMem

/-- Helper: when every topic of the log is in the bloom filter the topic
loop succeeds. -/
lemma validateLogTopics_complete (r : Receipt) (topics : List Nat)
    (hall : ∀ t ∈ topics, r.bloomContains (serializeUint32 t) = true) :
    ∀ checked : List AddrOrTopic,
      ∃ checked1, validateLogTopics r topics checked = .ok checked1 := by
  induction topics with
  | nil =>
    intro checked
    exact ⟨checked, rfl⟩
  | cons topic rest ih =>
    intro checked
    have htop : r.bloomContains (serializeUint32 topic) = true := hall topic (by simp)
    have hrest : ∀ t ∈ rest, r.bloomContains (serializeUint32 t) = true :=
      fun t ht => hall t (by simp [ht])
    by_cases hm : (Sum.inr topic : AddrOrTopic) ∈ checked
    · obtain ⟨c1, hc1⟩ := ih hrest checked
      exact ⟨c1, by simp only [validateLogTopics, if_pos hm]; exact hc1⟩
    · obtain ⟨c1, hc1⟩ := ih hrest (.inr topic :: checked)
      refine ⟨c1, ?_⟩
      simp only [validateLogTopics, if_neg hm, htop]
      simpa using hc1

/-- Helper: the topic loop of one log either succeeds or raises
ValidationError. -/
lemma validateLogTopics_total (r : Receipt) (topics : List Nat) :
    ∀ checked : List AddrOrTopic,
      (∃ checked1, validateLogTopics r topics checked = .ok checked1)
      ∨ validateLogTopics r topics checked = .error .validationError := by
  induction topics with
  | nil =>
    intro checked
    exact Or.inl ⟨checked, rfl⟩
  | cons topic rest ih =>
    intro checked
    by_cases hm : (Sum.inr topic : AddrOrTopic) ∈ checked
    · rcases ih checked with ⟨c1, hc1⟩ | herr
      · exact Or.inl ⟨c1, by simp only [validateLogTopics, if_pos hm]; exact hc1⟩
      · exact Or.inr (by simp only [validateLogTopics, if_pos hm]; exact herr)
    · by_cases hb : r.bloomContains (serializeUint32 topic) = false
      · exact Or.inr (by simp only [validateLogTopics, if_neg hm, if_pos hb])
      · rcases ih (.inr topic :: checked) with ⟨c1, hc1⟩ | herr
        · exact Or.inl ⟨c1,
            by simp only [validateLogTopics, if_neg hm, if_neg hb]; exact hc1⟩
        · exact Or.inr
            (by simp only [validateLogTopics, if_neg hm, if_neg hb]; exact herr)

/-- Helper: when the topics loop over all logs succeeds, every topic of
every log is in the bloom filter. -/
lemma validateReceiptTopics_ok_sound (r : Receipt) (logs : List Log) :
    ∀ checked checked1 : List AddrOrTopic,
      (∀ t : Nat, (Sum.inr t : AddrOrTopic) ∈ checked →
        r.bloomContains (serializeUint32 t) = true) →
      validateReceiptTopics r logs checked = .ok checked1 →
      ∀ log ∈ logs, ∀ t ∈ log.topics,
        r.bloomContains (serializeUint32 t) = true := by
  induction logs with
  | nil =>
    intro checked checked1 hc h
    simp
  | cons log rest ih =>
    intro checked checked1 hc h
    simp only [validateReceiptTopics] at h
    split at h
    · exact Except.noConfusion h
    · rename_i cmid hlt
      obtain ⟨h1, h2⟩ := validateLogTopics_ok_sound r log.topics checked cmid hc hlt
      intro lg hlg
      rcases List.mem_cons.mp hlg with hEq | hMem
      · subst hEq
        exact h1
      · exact ih cmid checked1 h2 h lg hMem

/-- Helper: when every topic of every log is in the bloom filter the topics
loop succeeds. -/
lemma validateReceiptTopics_complete (r : Receipt) (logs : List Log)
    (hall : ∀ log ∈ logs, ∀ t ∈ log.topics,
      r.bloomContains (serializeUint32 t) = true) :
    ∀ checked : List AddrOrTopic,
      ∃ checked1, validateReceiptTopics r logs checked = .ok checked1 := by
  induction logs with
  | nil =>
    intro checked
    exact ⟨checked, rfl⟩
  | cons log rest ih =>
    intro checked
    have hlog := hall log (by simp)
    have hrest : ∀ lg ∈ rest, ∀ t ∈ lg.topics,
        r.bloomContains (serializeUint32 t) = true :=
      fun lg hlg => hall lg (by simp [hlg])
    obtain ⟨cmid, hcmid⟩ := validateLogTopics_complete r log.topics hlog checked
    obtain ⟨c1, hc1⟩ := ih hrest cmid
    refine ⟨c1, ?_⟩
    simp only [validateReceiptTopics, hcmid]
    exact hc1

/-- Helper: the topics loop either succeeds or raises ValidationError. -/
lemma validateReceiptTopics_total (r : Receipt) (logs : List Log) :
    ∀ checked : List AddrOrTopic,
      (∃ checked1, validateReceiptTopics r logs checked = .ok checked1)
      ∨ validateReceiptTopics r logs checked = .error .validationError := by
  induction logs with
  | nil =>
    intro checked
    exact Or.inl ⟨checked, rfl⟩
  | cons log rest ih =>
    intro checked
    rcases validateLogTopics_total r log.topics checked with ⟨cmid, hcmid⟩ | herr
    · rcases ih cmid with ⟨c1, hc1⟩ | herr2
      · exact Or.inl ⟨c1, by simp only [validateReceiptTopics, hcmid]; exact hc1⟩
      · exact Or.inr (by simp only [validateReceiptTopics, hcmid]; exact herr2)
    · exact Or.inr (by simp only [validateReceiptTopics, herr])

/-- C8: validate_receipt returns normally exactly when every log address
and the 32-byte serialization of every topic of every log are present in
the receipt bloom filter, and whenever some address or topic is missing it
raises ValidationError; it is a pure check and modifies nothing. -/
theorem validate_receipt_bloom_soundness (r : Receipt) :
    (validateReceipt r = .ok () ↔
      ∀ log ∈ r.logs, r.bloomContains log.address = true
        ∧ ∀ topic ∈ log.topics,
            r.bloomContains (serializeUint32 topic) = true)
    ∧ (validateReceipt r = .ok ()
        ∨ validateReceipt r = .error .validationError) := by
  constructor
  · constructor
    · intro h
      simp only [validateReceipt] at h
      split at h
      · exact Except.noConfusion h
      · rename_i checked ha
        split at h
        · exact Except.noConfusion h
        · rename_i checked2 ht
          obtain ⟨haddr, hinv, hnr⟩ := validateReceiptAddresses_ok_sound r r.logs
            [] checked (by simp) ha
          have htopics := validateReceiptTopics_ok_sound r r.logs checked checked2
            (fun t htc => absurd (hnr t htc) (by simp)) ht
          exact fun log hlog => ⟨haddr log hlog, htopics log hlog⟩
    · intro hall
      obtain ⟨checked, hchecked⟩ := validateReceiptAddresses_complete r r.logs
        (fun log hlog => (hall log hlog).1) []
      obtain ⟨checked2, hchecked2⟩ := validateReceiptTopics_complete r r.logs
        (fun log hlog => (hall log hlog).2) checked
      simp only [validateReceipt, hchecked, hchecked2]
  · simp only [validateReceipt]
    rcases validateReceiptAddresses_total r r.logs [] with ⟨checked, hc⟩ | herr
    · rcases validateReceiptTopics_total r r.logs checked with ⟨c2, hc2⟩ | herr2
      · exact Or.inl (by simp only [hc, hc2])
      · exact Or.inr (by simp only [hc, herr2])
    · exact Or.inr (by simp only [herr])

/-- Witness for C8 at a concrete receipt whose log address and topic are in
the bloom filter: validate_receipt returns normally. -/
theorem validate_receipt_bloom_soundness_witness :
    validateReceipt sampleReceipt = .ok () :=
  (validate_receipt_bloom_soundness sampleReceipt).1.mpr (by decide)

/-- C9: in_costless_state yields a state built from a header copy whose
base_fee_per_gas is forced to 0 when the header carries a base fee, and for
every body run inside the context the state left after scope exit is the
snapshot taken at entry, so no change made inside the scope survives. -/
theorem in_costless_state_zero_base_fee_and_reverts
    (buildState : Header → EvmState) (header : Header)
    (body : EvmState → EvmState) :
    (inCostlessState buildState header body).1
      = buildState (costlessHeader header)
    ∧ (header.baseFeePerGas.isSome = true →
        (costlessHeader header).baseFeePerGas = some 0)
    ∧ (inCostlessState buildState header body).2
      = snapshotOf (buildState (costlessHeader header)) := by
  refine ⟨rfl, ?_, rfl⟩
  intro hbf
  match hh : header.baseFeePerGas with
  | some b => simp [costlessHeader, hh]
  | none => rw [hh] at hbf; cases hbf

/-- Witness for C9 at a concrete header with base fee 7 and a body that
changes a balance: the header copy has base fee 0 and the post-scope state
equals the entry snapshot. -/
theorem in_costless_state_zero_base_fee_and_reverts_witness :
    (costlessHeader sampleHeader).baseFeePerGas = some 0
    ∧ (inCostlessState (fun _ => sampleState) sampleHeader
        (fun s => deltaBalance s [1] 5)).2 = snapshotOf sampleState :=
  ⟨(in_costless_state_zero_base_fee_and_reverts (fun _ => sampleState)
      sampleHeader (fun s => deltaBalance s [1] 5)).2.1 (by rfl),
   (in_costless_state_zero_base_fee_and_reverts (fun _ => sampleState)
      sampleHeader (fun s => deltaBalance s [1] 5)).2.2⟩

end PyEvm
